import Mathlib

/-!
# Verification of the Scilla program-deployment pipeline

Shallow embedding of `src/commands/program/deploy.rs` (function
`deploy_program` and its helpers) together with proofs of the
specification's claims about it.

The embedding models:
* the payload chunking step (`slice::chunks(CHUNK_SIZE)`),
* the per-chunk write-transaction builder (priority-fee instruction +
  loader-v3 write instruction, one signed transaction per chunk),
* the confirmation loop (status polling, selective resend, 60-second
  fast-path budget) and the surrounding pipeline (buffer creation,
  TPU client lifecycle, finalize, optional authority revocation).

External effects (file system, RPC responses, transport send results,
elapsed-time checks) are supplied by an `Env` oracle; the pipeline is a
pure function from the oracle to a trace of observable events plus a
result, mirroring the Rust control flow statement by statement.
-/

namespace Scilla

/-- Fuel-indexed worker for `chunksOf` (structural recursion on the fuel so
that concrete instances evaluate inside the kernel).  One unit of fuel is
consumed per emitted chunk; `l.length` units always suffice for `C > 0`. -/
def chunksOfFuel (C : Nat) : Nat → List α → List (List α)
  | 0, _ => []
  | _, [] => []
  | fuel + 1, x :: xs =>
    if C = 0 then []
    else ((x :: xs).take C) :: chunksOfFuel C fuel ((x :: xs).drop C)

/-- Models Rust `slice::chunks(C)` as used in
`for (i, chunk) in program_data.chunks(CHUNK_SIZE).enumerate()`:
splits `l` into consecutive slices of length `C`, the last one
truncated to the remainder.  (Rust panics on `C = 0`; we return `[]`
there and only ever state claims for `C > 0`.) -/
def chunksOf (C : Nat) (l : List α) : List (List α) :=
  chunksOfFuel C l.length l

theorem chunksOfFuel_nil (C f : Nat) : chunksOfFuel C f ([] : List α) = [] := by
  cases f <;> rfl

theorem chunksOfFuel_congr (C : Nat) (hC : C ≠ 0) (f1 : Nat) :
    ∀ (f2 : Nat) (l : List α), l.length ≤ f1 → l.length ≤ f2 →
      chunksOfFuel C f1 l = chunksOfFuel C f2 l := by
  induction f1 with
  | zero =>
    intro f2 l h1 _
    have : l = [] := List.length_eq_zero.mp (Nat.le_zero.mp h1)
    subst this
    rw [chunksOfFuel_nil, chunksOfFuel_nil]
  | succ g1 ih =>
    intro f2 l h1 h2
    cases l with
    | nil => rw [chunksOfFuel_nil, chunksOfFuel_nil]
    | cons x xs =>
      cases f2 with
      | zero => simp at h2
      | succ g2 =>
        show chunksOfFuel C (g1 + 1) (x :: xs) = chunksOfFuel C (g2 + 1) (x :: xs)
        unfold chunksOfFuel
        simp only [hC, if_false]
        congr 1
        have hd : ((x :: xs).drop C).length ≤ g1 := by
          simp only [List.length_drop, List.length_cons]
          simp only [List.length_cons] at h1
          omega
        have hd2 : ((x :: xs).drop C).length ≤ g2 := by
          simp only [List.length_drop, List.length_cons]
          simp only [List.length_cons] at h2
          omega
        exact ih g2 _ hd hd2

theorem chunksOf_nil (C : Nat) : chunksOf C ([] : List α) = [] := rfl

theorem chunksOf_cons (C : Nat) (hC : C ≠ 0) (l : List α) (hl : l ≠ []) :
    chunksOf C l = (l.take C) :: chunksOf C (l.drop C) := by
  cases l with
  | nil => exact absurd rfl hl
  | cons x xs =>
    show chunksOfFuel C (xs.length + 1) (x :: xs) = _
    unfold chunksOfFuel
    simp only [hC, if_false]
    congr 1
    exact chunksOfFuel_congr C hC xs.length _ _
      (by simp only [List.length_drop, List.length_cons]; omega)
      (by simp only [List.length_drop, List.length_cons]; omega)

theorem chunksOf_drop_lt (C : Nat) (hC : C ≠ 0) (l : List α) (hl : l ≠ []) :
    (l.drop C).length < l.length := by
  simp only [List.length_drop]
  exact Nat.sub_lt (List.length_pos.mpr hl) (Nat.pos_of_ne_zero hC)

theorem chunksOf_flatten (C : Nat) (hC : C ≠ 0) (l : List α) :
    (chunksOf C l).flatten = l := by
  suffices H : ∀ n (l : List α), l.length = n → (chunksOf C l).flatten = l from
    H l.length l rfl
  intro n
  induction n using Nat.strong_induction_on with
  | _ n ih =>
    intro l hn
    rcases eq_or_ne l [] with rfl | hl
    · simp [chunksOf_nil]
    · rw [chunksOf_cons C hC l hl]
      have := ih (l.drop C).length (hn ▸ chunksOf_drop_lt C hC l hl) (l.drop C) rfl
      simp [this]

theorem chunksOf_getD (C : Nat) (hC : C ≠ 0) (l : List α) (i : Nat) :
    (chunksOf C l).getD i [] = (l.drop (i * C)).take C := by
  suffices H : ∀ n (l : List α), l.length = n → ∀ i,
      (chunksOf C l).getD i [] = (l.drop (i * C)).take C from H l.length l rfl i
  intro n
  induction n using Nat.strong_induction_on with
  | _ n ih =>
    intro l hn i
    rcases eq_or_ne l [] with rfl | hl
    · simp [chunksOf_nil]
    · rw [chunksOf_cons C hC l hl]
      cases i with
      | zero => simp
      | succ j =>
        have := ih (l.drop C).length (hn ▸ chunksOf_drop_lt C hC l hl) (l.drop C) rfl j
        simp only [List.getD_cons_succ, this, List.drop_drop]
        congr 1
        ring_nf

theorem chunksOf_length (C : Nat) (hC : C ≠ 0) (l : List α) :
    (chunksOf C l).length = (l.length + C - 1) / C := by
  suffices H : ∀ n (l : List α), l.length = n →
      (chunksOf C l).length = (l.length + C - 1) / C from H l.length l rfl
  intro n
  induction n using Nat.strong_induction_on with
  | _ n ih =>
    intro l hn
    rcases eq_or_ne l [] with rfl | hl
    · rw [chunksOf_nil]
      simp only [List.length_nil, Nat.zero_add]
      exact (Nat.div_eq_of_lt (by omega)).symm
    · rw [chunksOf_cons C hC l hl]
      have hpos : 0 < l.length := List.length_pos.mpr hl
      have hrec := ih (l.drop C).length (hn ▸ chunksOf_drop_lt C hC l hl) (l.drop C) rfl
      simp only [List.length_cons, hrec, List.length_drop]
      rcases Nat.lt_or_ge l.length C with hlt | hge
      · have h1 : l.length - C = 0 := by omega
        rw [h1]
        have h2 : (0 + C - 1) / C = 0 := Nat.div_eq_of_lt (by omega)
        rw [h2]
        have h3 : l.length + C - 1 = (l.length - 1) + C := by omega
        rw [h3, Nat.add_div_right _ (Nat.pos_of_ne_zero hC)]
        have : (l.length - 1) / C = 0 := Nat.div_eq_of_lt (by omega)
        omega
      · have h3 : l.length + C - 1 = (l.length - C + C - 1) + C := by omega
        rw [h3, Nat.add_div_right _ (Nat.pos_of_ne_zero hC)]

theorem chunksOf_length_pos (C : Nat) (hC : C ≠ 0) (l : List α) (hl : l ≠ []) :
    0 < (chunksOf C l).length := by
  rw [chunksOf_cons C hC l hl]; simp

/-- The payload extends strictly past the offset of the last chunk and is
covered by `n` chunks of size `C`. -/
theorem chunksOf_bounds (C : Nat) (hC : C ≠ 0) (l : List α) (hl : l ≠ []) :
    C * ((chunksOf C l).length - 1) < l.length ∧
    l.length ≤ C * (chunksOf C l).length := by
  suffices H : ∀ n (l : List α), l.length = n → l ≠ [] →
      C * ((chunksOf C l).length - 1) < l.length ∧
      l.length ≤ C * (chunksOf C l).length from H l.length l rfl hl
  intro n
  induction n using Nat.strong_induction_on with
  | _ n ih =>
    intro l hn hl
    rw [chunksOf_cons C hC l hl]
    rcases eq_or_ne (l.drop C) [] with hd | hd
    · have hle : l.length ≤ C := by
        have := congrArg List.length hd
        simp only [List.length_drop, List.length_nil] at this
        omega
      have hpos : 0 < l.length := List.length_pos.mpr hl
      simp [hd, chunksOf_nil]
      omega
    · have hpos : 0 < l.length := List.length_pos.mpr hl
      have hrec := ih (l.drop C).length (hn ▸ chunksOf_drop_lt C hC l hl) (l.drop C) rfl hd
      simp only [List.length_drop] at hrec
      have hm : 0 < (chunksOf C (l.drop C)).length :=
        chunksOf_length_pos C hC _ hd
      set m := (chunksOf C (l.drop C)).length with hmdef
      have hm1 : (m - 1) + 1 = m := by omega
      have hsplit : C * m = C * (m - 1) + C := by
        calc C * m = C * ((m - 1) + 1) := by rw [hm1]
        _ = C * (m - 1) + C := by ring
      simp only [List.length_cons]
      have hsucc : C * (m + 1) = C * m + C := by ring
      have hsub : m + 1 - 1 = m := by omega
      rw [hsub, hsucc]
      omega

/-- Claim C1: the chunking step (`program_data.chunks(CHUNK_SIZE).enumerate()`)
produces exactly `ceil(L/C)` chunks; chunk `i` is the slice of the payload
starting at offset `i*C`; every chunk except possibly the last has length
`C`; the last chunk is the non-empty remainder `L - (n-1)*C`; and the chunks
concatenate back to the payload. -/
theorem chunking_partitions_payload (C : Nat) (hC : 0 < C) (l : List Nat) :
    (chunksOf C l).length = (l.length + C - 1) / C ∧
    (∀ i, (chunksOf C l).getD i [] = (l.drop (i * C)).take C) ∧
    (∀ i, i + 1 < (chunksOf C l).length →
      ((chunksOf C l).getD i []).length = C) ∧
    (l ≠ [] →
      ((chunksOf C l).getD ((chunksOf C l).length - 1) []).length
        = l.length - ((chunksOf C l).length - 1) * C ∧
      0 < ((chunksOf C l).getD ((chunksOf C l).length - 1) []).length) ∧
    (chunksOf C l).flatten = l := by
  have hC' : C ≠ 0 := Nat.pos_iff_ne_zero.mp hC
  refine ⟨chunksOf_length C hC' l, fun i => chunksOf_getD C hC' l i, ?_, ?_,
    chunksOf_flatten C hC' l⟩
  · intro i hi
    have hl : l ≠ [] := by
      intro h; subst h; simp [chunksOf_nil] at hi
    obtain ⟨hlo, _⟩ := chunksOf_bounds C hC' l hl
    rw [chunksOf_getD C hC' l i]
    simp only [List.length_take, List.length_drop]
    have hle : C * (i + 1) ≤ C * ((chunksOf C l).length - 1) :=
      Nat.mul_le_mul_left C (by omega)
    have h1 : C * (i + 1) = C * i + C := by ring
    have h2 : i * C = C * i := by ring
    omega
  · intro hl
    obtain ⟨hlo, hhi⟩ := chunksOf_bounds C hC' l hl
    set n := (chunksOf C l).length with hn
    have hnpos : 0 < n := chunksOf_length_pos C hC' l hl
    rw [chunksOf_getD C hC' l (n - 1)]
    simp only [List.length_take, List.length_drop]
    have hn1 : (n - 1) + 1 = n := by omega
    have hsplit : C * n = C * (n - 1) + C := by
      calc C * n = C * ((n - 1) + 1) := by rw [hn1]
      _ = C * (n - 1) + C := by ring
    have h2 : (n - 1) * C = C * (n - 1) := by ring
    constructor
    · omega
    · omega

/-- Witness for `chunking_partitions_payload` at `C = 3` and a 7-byte
payload: three chunks `[0,1,2] [3,4,5] [6]`. -/
theorem chunking_partitions_payload_witness :
    0 < 3 ∧
    ((chunksOf 3 [0, 1, 2, 3, 4, 5, 6]).length = (7 + 3 - 1) / 3 ∧
    (∀ i, (chunksOf 3 [0, 1, 2, 3, 4, 5, 6]).getD i []
        = (([0, 1, 2, 3, 4, 5, 6] : List Nat).drop (i * 3)).take 3) ∧
    (∀ i, i + 1 < (chunksOf 3 [0, 1, 2, 3, 4, 5, 6]).length →
      ((chunksOf 3 [0, 1, 2, 3, 4, 5, 6]).getD i []).length = 3) ∧
    (([0, 1, 2, 3, 4, 5, 6] : List Nat) ≠ [] →
      ((chunksOf 3 [0, 1, 2, 3, 4, 5, 6]).getD
          ((chunksOf 3 [0, 1, 2, 3, 4, 5, 6]).length - 1) []).length
        = 7 - ((chunksOf 3 [0, 1, 2, 3, 4, 5, 6]).length - 1) * 3 ∧
      0 < ((chunksOf 3 [0, 1, 2, 3, 4, 5, 6]).getD
          ((chunksOf 3 [0, 1, 2, 3, 4, 5, 6]).length - 1) []).length) ∧
    (chunksOf 3 [0, 1, 2, 3, 4, 5, 6]).flatten = [0, 1, 2, 3, 4, 5, 6]) :=
  ⟨by decide, chunking_partitions_payload 3 (by decide) [0, 1, 2, 3, 4, 5, 6]⟩

/-! ## Instructions, transactions, signatures -/

/-- One on-chain instruction as assembled by the deploy pipeline.  The
ComputeBudget instruction is built byte-for-byte by `set_compute_unit_price`
in the source; the loader-v3 instructions come from the external
`solana_loader_v3_interface` crate and are kept as an opaque constructor
recording exactly the arguments the source passes. -/
inductive Ix where
  /-- An instruction assembled literally in this repository
  (`solana_instruction::Instruction { program_id, accounts, data }`). -/
  | raw (programId : String) (accounts : List String) (data : List Nat)
  /-- `loader_v3_instruction::write(&buffer_pubkey, ctx.pubkey(), offset, chunk.to_vec())`. -/
  | loaderV3Write (buffer payer : String) (offset : Nat) (bytes : List Nat)
deriving DecidableEq, Repr, Inhabited

/-- `u64::to_le_bytes`: the 8 little-endian bytes of a 64-bit value. -/
def u64LeBytes (n : Nat) : List Nat := (List.range 8).map fun i => n / 256 ^ i % 256

/-- `set_compute_unit_price` (src/commands/program/deploy.rs): a
ComputeBudget instruction whose data is the tag byte `3` followed by the
price in micro-lamports as a little-endian `u64`, with no accounts. -/
def set_compute_unit_price (microLamports : Nat) : Ix :=
  Ix.raw "ComputeBudget111111111111111111111111111111" []
    (3 :: u64LeBytes microLamports)

/-- One signed write transaction, identified with its wire form
(`bincode::serialize` is injective on transactions, so re-broadcasting an
element of `wire_transactions` is byte-identical re-broadcasting). -/
structure Tx where
  feePayer : String
  blockhash : Nat
  instructions : List Ix
deriving DecidableEq, Repr, Inhabited

/-- The first signature of a signed transaction
(`transaction.signatures[0]`).  Local signing is deterministic, so the
signature is determined by — and modelled as — the signed content. -/
structure Sig where
  signedContent : Tx
deriving DecidableEq, Repr, Inhabited

def Tx.sig (t : Tx) : Sig := ⟨t⟩

/-- The write-transaction build loop of `deploy_program`
(`for (i, chunk) in program_data.chunks(CHUNK_SIZE).enumerate()`): one
transaction per chunk whose message is the priority-fee instruction at
price 50,000 followed by the loader-v3 write at offset
`(i * CHUNK_SIZE) as u32` with the chunk's bytes, all sharing one
blockhash and fee payer `ctx.pubkey()`. -/
def buildWriteTxs (payer buffer : String) (blockhash : Nat) (C : Nat)
    (programData : List Nat) : List Tx :=
  (chunksOf C programData).enum.map fun p =>
    { feePayer := payer
      blockhash := blockhash
      instructions := [set_compute_unit_price 50000,
        Ix.loaderV3Write buffer payer (p.1 * C % 2 ^ 32) p.2] }

theorem buildWriteTxs_length (payer buffer : String) (bh C : Nat) (data : List Nat) :
    (buildWriteTxs payer buffer bh C data).length = (chunksOf C data).length := by
  simp [buildWriteTxs]

/-- Claim C10: every write-chunk transaction carries exactly two instructions:
first the ComputeBudget `SetComputeUnitPrice` instruction at 50,000
micro-lamports, whose data is the tag byte `3` followed by the price as a
little-endian `u64` and which has no accounts, and second the loader-v3
write instruction for that chunk's offset (`(i * CHUNK_SIZE) as u32`)
and that chunk's bytes. -/
theorem write_tx_two_instructions (payer buffer : String) (bh C : Nat)
    (data : List Nat) (i : Nat)
    (hi : i < (buildWriteTxs payer buffer bh C data).length) :
    ((buildWriteTxs payer buffer bh C data).getD i default).instructions
      = [set_compute_unit_price 50000,
         Ix.loaderV3Write buffer payer (i * C % 2 ^ 32)
           ((chunksOf C data).getD i [])] ∧
    set_compute_unit_price 50000
      = Ix.raw "ComputeBudget111111111111111111111111111111" []
          (3 :: u64LeBytes 50000) ∧
    u64LeBytes 50000 = [80, 195, 0, 0, 0, 0, 0, 0] := by
  refine ⟨?_, rfl, by decide⟩
  have hlen : i < (chunksOf C data).length := by
    rwa [buildWriteTxs_length] at hi
  have hlen' : i < (chunksOf C data).enum.length := by simpa using hlen
  rw [List.getD_eq_getElem _ _ hi]
  simp only [buildWriteTxs, List.getElem_map, List.getElem_enum]
  rw [List.getD_eq_getElem _ _ hlen]

/-- Witness for `write_tx_two_instructions`: chunk 1 of a 5-byte payload
with `CHUNK_SIZE = 4`. -/
theorem write_tx_two_instructions_witness :
    1 < (buildWriteTxs "payer" "buffer" 9 4 [1, 2, 3, 4, 5]).length ∧
    (((buildWriteTxs "payer" "buffer" 9 4 [1, 2, 3, 4, 5]).getD 1 default).instructions
      = [set_compute_unit_price 50000,
         Ix.loaderV3Write "buffer" "payer" (1 * 4 % 2 ^ 32)
           ((chunksOf 4 [1, 2, 3, 4, 5]).getD 1 [])] ∧
    set_compute_unit_price 50000
      = Ix.raw "ComputeBudget111111111111111111111111111111" []
          (3 :: u64LeBytes 50000) ∧
    u64LeBytes 50000 = [80, 195, 0, 0, 0, 0, 0, 0]) :=
  ⟨by decide, write_tx_two_instructions "payer" "buffer" 9 4 [1, 2, 3, 4, 5] 1 (by decide)⟩

/-! ## The deployment pipeline

`deploy_program` is modelled as a pure function of an `Env` oracle that
supplies every external effect, returning the trace of observable calls
plus the `anyhow::Result`.  The trace events correspond one-to-one to the
source's effectful calls. -/

/-- Observable effectful calls of one `deploy_program` run. -/
inductive Event where
  /-- `build_and_send_tx(ctx, &create_buffer_ix, ...)` — buffer creation. -/
  | createBufferSent
  /-- `transaction_sender.send_transactions_in_batch(wire_transactions.clone())` —
  the initial TPU broadcast of all chunk transactions. -/
  | tpuInitialSent (txs : List Tx)
  /-- `rpc_client.get_signature_statuses(&write_signatures)` — one batched
  status poll, recording the queried signatures. -/
  | statusQueried (sigs : List Sig)
  /-- `transaction_sender.send_transactions_in_batch(unconfirmed_wire_txs)` —
  a resend round inside the confirmation loop. -/
  | tpuResent (txs : List Tx)
  /-- `client.shutdown()` — TPU client shutdown. -/
  | shutdownCalled
  /-- `build_and_send_tx(ctx, &deploy_ix, ...)` — the finalize
  (deploy-from-buffer) instruction. -/
  | finalizeSent
  /-- A reliable-path submit-and-confirm of chunk `i`.  Modelled from the
  spec (§4.7 ReliableFallbackTransport); the source has no such call, so no
  code path emits this event. -/
  | fallbackSubmitted (i : Nat)
  /-- `build_and_send_tx(ctx, &[set_authority_ix], ...)` — upgrade-authority
  revocation. -/
  | authorityRevoked
deriving DecidableEq, Repr, Inhabited

/-- Oracle for every external effect of one `deploy_program` run, in source
order.  `Except.error` models the corresponding Rust call returning `Err`. -/
structure Env where
  /-- `ctx.pubkey()` — the operator keypair's public key. -/
  payer : String
  /-- `Keypair::new()` — the fresh buffer account key. -/
  bufferKey : String
  /-- `program_path_buf.exists()`. -/
  fileExists : Bool
  /-- `File::open` + `read_to_end`: the payload bytes. -/
  readResult : Except String (List Nat)
  /-- `read_keypair_from_path(keypair_path)`: the program id. -/
  programKeypair : Except String String
  /-- `get_minimum_balance_for_rent_exemption(buffer_len)`. -/
  bufferRent : Except String Nat
  /-- `get_minimum_balance_for_rent_exemption(programdata_len)`. -/
  programdataRent : Except String Nat
  /-- Result of the buffer-creation `build_and_send_tx`. -/
  createBufferSend : Except String Nat
  /-- `rpc_client.get_latest_blockhash()`. -/
  blockhash : Except String Nat
  /-- `get_cluster_nodes()` filtered to `tpu_quic` advertisers: the number
  of usable QUIC endpoints. -/
  quicNodes : Except String Nat
  /-- Result of the initial `send_transactions_in_batch`. -/
  initialSend : Except String Unit
  /-- Per loop iteration `t`: `get_signature_statuses` for the queried
  signatures — `true` at index `i` means a status with
  `confirmation_status.is_some()` was returned for chunk `i`. -/
  statuses : Nat → Except String (List Bool)
  /-- Per loop iteration `t`: whether `last_resend.elapsed() >= resend_interval`. -/
  resendDue : Nat → Bool
  /-- Per loop iteration `t`: result of the resend
  `send_transactions_in_batch` (discarded by the source via `let _ =`). -/
  resendResult : Nat → Except String Unit
  /-- Result of `client.shutdown()`. -/
  shutdownResult : Except String Unit
  /-- Result of the finalize `build_and_send_tx`. -/
  finalizeSend : Except String Nat
  /-- Result of the authority-revocation `build_and_send_tx`. -/
  authoritySend : Except String Nat

/-- `max_wait_seconds = 60`. -/
def maxWaitSeconds : Nat := 60

/-- The confirmation loop's mutable state:
`let mut confirmed = vec![false; n]; let mut confirmed_count = 0;`. -/
structure LoopState where
  confirmed : List Bool
  count : Nat
deriving DecidableEq, Repr, Inhabited

/-- One poll round's flag update
(`for (idx, status_option) in statuses.value.iter().enumerate() { ... }`):
skip already-confirmed chunks, set the flag and bump the counter for every
index whose status came back non-empty with a confirmation status. -/
def pollStep (resp : List Bool) (s : LoopState) : LoopState :=
  (List.range s.confirmed.length).foldl
    (fun acc idx =>
      if acc.confirmed.getD idx false then acc
      else if resp.getD idx false then
        { confirmed := acc.confirmed.set idx true, count := acc.count + 1 }
      else acc) s

/-- The resend selection
(`wire_transactions.iter().enumerate().filter(|(i, _)| !confirmed[*i]).map(...)`):
the originally serialized wire transactions of the still-unconfirmed
chunks, in index order. -/
def unconfirmedBatch (wireTxs : List Tx) (conf : List Bool) : List Tx :=
  ((wireTxs.enum).filter fun p => !conf.getD p.1 false).map Prod.snd

/-- The confirmation loop
(`for elapsed_seconds in 0..max_wait_seconds { ... }`), driven by the
remaining `fuel` iterations starting at iteration `t`: poll all
signatures, update flags, break when all confirmed, resend the unconfirmed
batch when the resend interval elapsed.  A status-query error aborts the
whole pipeline (`?`); resend errors are discarded (`let _ =`). -/
def runLoop (env : Env) (wireTxs : List Tx) (sigs : List Sig) :
    Nat → Nat → LoopState → List Event × Except String LoopState
  | 0, _, s => ([], .ok s)
  | fuel + 1, t, s =>
    match env.statuses t with
    | .error e => ([Event.statusQueried sigs], .error e)
    | .ok resp =>
      let s' := pollStep resp s
      if s'.count = wireTxs.length then
        ([Event.statusQueried sigs], .ok s')
      else if env.resendDue t then
        let batch := unconfirmedBatch wireTxs s'.confirmed
        if batch.isEmpty then
          let (evs, r) := runLoop env wireTxs sigs fuel (t + 1) s'
          (Event.statusQueried sigs :: evs, r)
        else
          let _ := env.resendResult t
          let (evs, r) := runLoop env wireTxs sigs fuel (t + 1) s'
          (Event.statusQueried sigs :: Event.tpuResent batch :: evs, r)
      else
        let (evs, r) := runLoop env wireTxs sigs fuel (t + 1) s'
        (Event.statusQueried sigs :: evs, r)

/-- The finalize step of `deploy_program`
(`loader_v3_instruction::deploy_with_max_program_len` + `build_and_send_tx`)
followed by the optional upgrade-authority revocation; `evs` is the trace
accumulated so far. -/
def deployFinalize (env : Env) (immutable : Bool) (evs : List Event) :
    List Event × Except String Unit :=
  let evs := evs ++ [Event.finalizeSent]
  match env.finalizeSend with
  | .error e => (evs, .error e)
  | .ok _ =>
    if immutable then
      let evs := evs ++ [Event.authorityRevoked]
      match env.authoritySend with
      | .error e => (evs, .error e)
      | .ok _ => (evs, .ok ())
    else (evs, .ok ())

/-- The part of `deploy_program` after the confirmation loop: propagate a
loop error as-is (the `?` on `get_signature_statuses` — note no shutdown on
this path), otherwise shut the TPU client down, bail if any chunk is still
unconfirmed, and finalize. -/
def deployTail (env : Env) (wireTxs : List Tx) (immutable : Bool)
    (loopOut : List Event × Except String LoopState) :
    List Event × Except String Unit :=
  let evs := Event.createBufferSent :: Event.tpuInitialSent wireTxs :: loopOut.1
  match loopOut.2 with
  | .error e => (evs, .error e)
  | .ok s =>
    let evs := evs ++ [Event.shutdownCalled]
    match env.shutdownResult with
    | .error _ => (evs, .error "Failed to shutdown TPU client")
    | .ok _ =>
      if s.count < wireTxs.length then
        (evs, .error "chunks unconfirmed via QUIC after max wait")
      else deployFinalize env immutable evs

/-- The whole of `deploy_program` (src/commands/program/deploy.rs), step by
step in source order. -/
def deploy_program (env : Env) (C : Nat) (immutable : Bool) :
    List Event × Except String Unit :=
  if env.fileExists = false then
    ([], .error "Program file not found")
  else
    match env.readResult with
    | .error e => ([], .error e)
    | .ok programData =>
      match env.programKeypair with
      | .error e => ([], .error e)
      | .ok _programId =>
        match env.bufferRent with
        | .error e => ([], .error e)
        | .ok _bufferRent =>
          match env.programdataRent with
          | .error e => ([], .error e)
          | .ok _programdataRent =>
            match env.createBufferSend with
            | .error e => ([Event.createBufferSent], .error e)
            | .ok _sig =>
              match env.blockhash with
              | .error e => ([Event.createBufferSent], .error e)
              | .ok bh =>
                let wireTxs := buildWriteTxs env.payer env.bufferKey bh C programData
                let sigs := wireTxs.map Tx.sig
                match env.quicNodes with
                | .error e => ([Event.createBufferSent], .error e)
                | .ok q =>
                  if q = 0 then
                    ([Event.createBufferSent], .error "No TPU addresses found in cluster")
                  else
                    match env.initialSend with
                    | .error _ =>
                      ([Event.createBufferSent, Event.tpuInitialSent wireTxs],
                        .error "Failed to send write transactions via TPU")
                    | .ok _ =>
                      let init : LoopState := ⟨List.replicate wireTxs.length false, 0⟩
                      deployTail env wireTxs immutable
                        (runLoop env wireTxs sigs maxWaitSeconds 0 init)

/-- The write transactions a run of `deploy_program` operates on, recovered
from the oracle (meaningful once `readResult` and `blockhash` are `ok`). -/
def runWireTxs (env : Env) (C : Nat) : List Tx :=
  match env.readResult, env.blockhash with
  | .ok d, .ok bh => buildWriteTxs env.payer env.bufferKey bh C d
  | _, _ => []

/-! ## Confirmation-loop invariants -/

theorem foldl_invariant {β γ : Type _} (P : β → Prop) :
    ∀ (l : List γ) (f : β → γ → β),
      (∀ b a, a ∈ l → P b → P (f b a)) → ∀ b, P b → P (l.foldl f b) := by
  intro l
  induction l with
  | nil => intro f _ b h; exact h
  | cons x xs ih =>
    intro f hf b h
    exact ih f (fun b a ha hb => hf b a (List.mem_cons_of_mem x ha) hb) (f b x)
      (hf b x (List.mem_cons_self x xs) h)

theorem pollStep_length (resp : List Bool) (s : LoopState) :
    (pollStep resp s).confirmed.length = s.confirmed.length := by
  unfold pollStep
  refine foldl_invariant (fun acc => acc.confirmed.length = s.confirmed.length)
    _ _ (fun acc idx _ h => ?_) s rfl
  dsimp only
  split
  · exact h
  · split
    · simpa using h
    · exact h

/-- Claim C5 at the single-poll level: a `true` flag survives one poll update. -/
theorem pollStep_monotone (resp : List Bool) (s : LoopState) (i : Nat)
    (h : s.confirmed.getD i false = true) :
    (pollStep resp s).confirmed.getD i false = true := by
  unfold pollStep
  refine foldl_invariant (fun acc => acc.confirmed.getD i false = true)
    _ _ (fun acc idx _ hacc => ?_) s h
  dsimp only
  split
  · exact hacc
  · split
    · rename_i hidx _
      have hne : idx ≠ i := by
        intro he
        subst he
        rw [hacc] at hidx
        exact hidx rfl
      simp only [List.getD_eq_getElem?_getD, List.getElem?_set_ne hne]
      simpa only [List.getD_eq_getElem?_getD] using hacc
    · exact hacc

theorem count_true_set (l : List Bool) (i : Nat) (hi : i < l.length)
    (hf : l.getD i false = false) :
    (l.set i true).count true = l.count true + 1 := by
  induction l generalizing i with
  | nil => simp at hi
  | cons x xs ih =>
    cases i with
    | zero =>
      simp only [List.getD_cons_zero] at hf
      subst hf
      simp [List.count_cons]
    | succ j =>
      simp only [List.getD_cons_succ] at hf
      simp only [List.length_cons] at hi
      simp only [List.set_cons_succ, List.count_cons, ih j (by omega) hf]
      omega

/-- The loop invariant tying `confirmed_count` to the flag vector:
the vector keeps its length and the counter counts the `true` flags. -/
def LoopInv (n : Nat) (s : LoopState) : Prop :=
  s.confirmed.length = n ∧ s.count = s.confirmed.count true

theorem pollStep_inv (resp : List Bool) (s : LoopState) (n : Nat)
    (h : LoopInv n s) : LoopInv n (pollStep resp s) := by
  have hs : s.confirmed.length = n := h.1
  unfold pollStep
  refine foldl_invariant (LoopInv n) _ _ (fun acc idx hmem hacc => ?_) s h
  obtain ⟨hlen, hcount⟩ := hacc
  have hidxn : idx < n := by
    rw [List.mem_range] at hmem
    omega
  split
  · exact ⟨hlen, hcount⟩
  · split
    · rename_i hconf _
      have hconf' : acc.confirmed.getD idx false = false := by
        cases hval : acc.confirmed.getD idx false
        · rfl
        · exact absurd hval hconf
      refine ⟨by simpa using hlen, ?_⟩
      rw [count_true_set acc.confirmed idx (by omega) hconf', hcount]
    · exact ⟨hlen, hcount⟩

theorem loopInv_count_le (n : Nat) (s : LoopState) (h : LoopInv n s) :
    s.count ≤ n := by
  obtain ⟨hlen, hcount⟩ := h
  rw [hcount, ← hlen]
  exact List.count_le_length true s.confirmed

theorem loopInv_all_confirmed (n : Nat) (s : LoopState) (h : LoopInv n s)
    (hc : s.count = n) : ∀ i < s.confirmed.length, s.confirmed.getD i false = true := by
  obtain ⟨hlen, hcount⟩ := h
  have hall : ∀ b ∈ s.confirmed, true = b :=
    List.count_eq_length.mp (by omega)
  intro i hi
  have : s.confirmed.getD i false = s.confirmed[i] := by
    rw [List.getD_eq_getElem?_getD, List.getElem?_eq_getElem hi]
    rfl
  rw [this]
  exact (hall _ (List.getElem_mem hi)).symm

/-- The loop preserves the invariant and a successful exit keeps it. -/
theorem runLoop_inv (env : Env) (wireTxs : List Tx) (sigs : List Sig) :
    ∀ fuel t s evs s', runLoop env wireTxs sigs fuel t s = (evs, .ok s') →
      LoopInv wireTxs.length s → LoopInv wireTxs.length s' := by
  intro fuel
  induction fuel with
  | zero =>
    intro t s evs s' hrun hinv
    simp only [runLoop] at hrun
    injection hrun with h1 h2
    injection h2 with h2
    exact h2 ▸ hinv
  | succ fuel ih =>
    intro t s evs s' hrun hinv
    simp only [runLoop] at hrun
    cases hst : env.statuses t with
    | error e =>
      rw [hst] at hrun
      simp at hrun
    | ok resp =>
      rw [hst] at hrun
      simp only at hrun
      have hinv' : LoopInv wireTxs.length (pollStep resp s) :=
        pollStep_inv resp s wireTxs.length hinv
      by_cases hdone : (pollStep resp s).count = wireTxs.length
      · rw [if_pos hdone] at hrun
        injection hrun with h1 h2
        injection h2 with h2
        exact h2 ▸ hinv'
      · rw [if_neg hdone] at hrun
        by_cases hdue : env.resendDue t
        · rw [if_pos hdue] at hrun
          by_cases hempty : (unconfirmedBatch wireTxs (pollStep resp s).confirmed).isEmpty
          · rw [if_pos hempty] at hrun
            rcases hrec : runLoop env wireTxs sigs fuel (t + 1) (pollStep resp s)
              with ⟨evs2, r2⟩
            rw [hrec] at hrun
            injection hrun with h1 h2
            cases h2
            exact ih (t + 1) (pollStep resp s) evs2 s' hrec hinv'
          · rw [if_neg hempty] at hrun
            rcases hrec : runLoop env wireTxs sigs fuel (t + 1) (pollStep resp s)
              with ⟨evs2, r2⟩
            rw [hrec] at hrun
            injection hrun with h1 h2
            cases h2
            exact ih (t + 1) (pollStep resp s) evs2 s' hrec hinv'
        · rw [if_neg hdue] at hrun
          rcases hrec : runLoop env wireTxs sigs fuel (t + 1) (pollStep resp s)
            with ⟨evs2, r2⟩
          rw [hrec] at hrun
          injection hrun with h1 h2
          cases h2
          exact ih (t + 1) (pollStep resp s) evs2 s' hrec hinv'

/-! ## Confirmation-loop trace lemmas -/

/-- One unrolling of `runLoop`: the four possible shapes of an iteration
(status-query failure, all-confirmed break, resend round, plain round). -/
theorem runLoop_succ_cases (env : Env) (wireTxs : List Tx) (sigs : List Sig)
    (fuel t : Nat) (s : LoopState) :
    (∃ e, env.statuses t = .error e ∧
      runLoop env wireTxs sigs (fuel + 1) t s
        = ([Event.statusQueried sigs], .error e)) ∨
    (∃ resp, env.statuses t = .ok resp ∧
      (pollStep resp s).count = wireTxs.length ∧
      runLoop env wireTxs sigs (fuel + 1) t s
        = ([Event.statusQueried sigs], .ok (pollStep resp s))) ∨
    (∃ resp, env.statuses t = .ok resp ∧
      (pollStep resp s).count ≠ wireTxs.length ∧
      env.resendDue t = true ∧
      (unconfirmedBatch wireTxs (pollStep resp s).confirmed).isEmpty = false ∧
      runLoop env wireTxs sigs (fuel + 1) t s
        = (Event.statusQueried sigs ::
            Event.tpuResent (unconfirmedBatch wireTxs (pollStep resp s).confirmed) ::
            (runLoop env wireTxs sigs fuel (t + 1) (pollStep resp s)).1,
           (runLoop env wireTxs sigs fuel (t + 1) (pollStep resp s)).2)) ∨
    (∃ resp, env.statuses t = .ok resp ∧
      (pollStep resp s).count ≠ wireTxs.length ∧
      runLoop env wireTxs sigs (fuel + 1) t s
        = (Event.statusQueried sigs ::
            (runLoop env wireTxs sigs fuel (t + 1) (pollStep resp s)).1,
           (runLoop env wireTxs sigs fuel (t + 1) (pollStep resp s)).2)) := by
  cases hst : env.statuses t with
  | error e =>
    refine Or.inl ⟨e, rfl, ?_⟩
    simp only [runLoop, hst]
  | ok resp =>
    by_cases hdone : (pollStep resp s).count = wireTxs.length
    · refine Or.inr (Or.inl ⟨resp, rfl, hdone, ?_⟩)
      simp only [runLoop, hst, if_pos hdone]
    · by_cases hdue : env.resendDue t
      · by_cases hempty : (unconfirmedBatch wireTxs (pollStep resp s).confirmed).isEmpty
        · refine Or.inr (Or.inr (Or.inr ⟨resp, rfl, hdone, ?_⟩))
          simp only [runLoop, hst, if_neg hdone, if_pos hdue, if_pos hempty]
        · refine Or.inr (Or.inr (Or.inl ⟨resp, rfl, hdone, hdue,
            Bool.not_eq_true _ ▸ hempty, ?_⟩))
          simp only [runLoop, hst, if_neg hdone, if_pos hdue, if_neg hempty]
      · refine Or.inr (Or.inr (Or.inr ⟨resp, rfl, hdone, ?_⟩))
        simp only [runLoop, hst, if_neg hdone, if_neg hdue]

/-- Claim C5 at loop level: once a chunk's flag is `true`, every later state of
the confirmation loop keeps it `true`. -/
theorem runLoop_monotone (env : Env) (wireTxs : List Tx) (sigs : List Sig) :
    ∀ fuel t s evs s', runLoop env wireTxs sigs fuel t s = (evs, .ok s') →
      ∀ i, s.confirmed.getD i false = true → s'.confirmed.getD i false = true := by
  intro fuel
  induction fuel with
  | zero =>
    intro t s evs s' hrun i hi
    simp only [runLoop] at hrun
    injection hrun with h1 h2
    injection h2 with h2
    exact h2 ▸ hi
  | succ fuel ih =>
    intro t s evs s' hrun i hi
    rcases runLoop_succ_cases env wireTxs sigs fuel t s with
      ⟨e, _, heq⟩ | ⟨resp, _, _, heq⟩ | ⟨resp, _, _, _, _, heq⟩ | ⟨resp, _, _, heq⟩
    · rw [heq] at hrun
      injection hrun with h1 h2
      cases h2
    · rw [heq] at hrun
      injection hrun with h1 h2
      injection h2 with h2
      exact h2 ▸ pollStep_monotone resp s i hi
    · rw [heq] at hrun
      injection hrun with h1 h2
      rcases hrec : runLoop env wireTxs sigs fuel (t + 1) (pollStep resp s)
        with ⟨evs2, r2⟩
      rw [hrec] at h2
      exact ih (t + 1) (pollStep resp s) evs2 s' (by rw [hrec, ← h2]) i
        (pollStep_monotone resp s i hi)
    · rw [heq] at hrun
      injection hrun with h1 h2
      rcases hrec : runLoop env wireTxs sigs fuel (t + 1) (pollStep resp s)
        with ⟨evs2, r2⟩
      rw [hrec] at h2
      exact ih (t + 1) (pollStep resp s) evs2 s' (by rw [hrec, ← h2]) i
        (pollStep_monotone resp s i hi)

/-- The loop's trace contains only status queries and resend events. -/
theorem runLoop_events (env : Env) (wireTxs : List Tx) (sigs : List Sig) :
    ∀ fuel t s e, e ∈ (runLoop env wireTxs sigs fuel t s).1 →
      (∃ q, e = Event.statusQueried q) ∨ (∃ b, e = Event.tpuResent b) := by
  intro fuel
  induction fuel with
  | zero =>
    intro t s e he
    simp only [runLoop] at he
    simp at he
  | succ fuel ih =>
    intro t s e he
    rcases runLoop_succ_cases env wireTxs sigs fuel t s with
      ⟨x, _, heq⟩ | ⟨resp, _, _, heq⟩ | ⟨resp, _, _, _, _, heq⟩ | ⟨resp, _, _, heq⟩ <;>
      rw [heq] at he <;>
      simp only [List.mem_cons, List.not_mem_nil, or_false] at he
    · exact he ▸ Or.inl ⟨sigs, rfl⟩
    · exact he ▸ Or.inl ⟨sigs, rfl⟩
    · rcases he with rfl | rfl | he
      · exact Or.inl ⟨sigs, rfl⟩
      · exact Or.inr ⟨_, rfl⟩
      · exact ih (t + 1) (pollStep resp s) e he
    · rcases he with rfl | he
      · exact Or.inl ⟨sigs, rfl⟩
      · exact ih (t + 1) (pollStep resp s) e he

/-- Claim C6 (amended) at loop level: every status query of the loop passes the
full signature list it was given — the `sigs` argument never shrinks. -/
theorem runLoop_query_args (env : Env) (wireTxs : List Tx) (sigs : List Sig) :
    ∀ fuel t s q, Event.statusQueried q ∈ (runLoop env wireTxs sigs fuel t s).1 →
      q = sigs := by
  intro fuel
  induction fuel with
  | zero =>
    intro t s q hq
    simp only [runLoop] at hq
    simp at hq
  | succ fuel ih =>
    intro t s q hq
    rcases runLoop_succ_cases env wireTxs sigs fuel t s with
      ⟨x, _, heq⟩ | ⟨resp, _, _, heq⟩ | ⟨resp, _, _, _, _, heq⟩ | ⟨resp, _, _, heq⟩ <;>
      rw [heq] at hq <;>
      simp only [List.mem_cons, List.not_mem_nil, or_false] at hq
    · injection hq
    · injection hq
    · rcases hq with hq | hq | hq
      · injection hq
      · cases hq
      · exact ih (t + 1) (pollStep resp s) q hq
    · rcases hq with hq | hq
      · injection hq
      · exact ih (t + 1) (pollStep resp s) q hq

/-- `Evolves env t s t' s'`: starting the confirmation loop at iteration `t`
in state `s` and fully processing the poll responses of iterations
`t, …, t' - 1` (as the oracle actually answered them) leaves the loop at
iteration `t'` in state `s'`. -/
inductive Evolves (env : Env) : Nat → LoopState → Nat → LoopState → Prop where
  | refl (t : Nat) (s : LoopState) : Evolves env t s t s
  | step {t t' : Nat} {s s' : LoopState} (resp : List Bool)
      (hst : env.statuses t = .ok resp)
      (h : Evolves env (t + 1) (pollStep resp s) t' s') : Evolves env t s t' s'

/-- Claim C4 at loop level: every resend batch in the loop's trace is
`unconfirmedBatch` of the flag vector current at that round — the state
reached from the entry state by the oracle's own poll responses, updated
with that round's poll — and a resend only happens when the resend
interval elapsed and not all chunks were confirmed. -/
theorem runLoop_resent_batches (env : Env) (wireTxs : List Tx) (sigs : List Sig) :
    ∀ fuel t s b, Event.tpuResent b ∈ (runLoop env wireTxs sigs fuel t s).1 →
      ∃ t' s' resp, Evolves env t s t' s' ∧ env.statuses t' = .ok resp ∧
        env.resendDue t' = true ∧
        (pollStep resp s').count ≠ wireTxs.length ∧
        b = unconfirmedBatch wireTxs (pollStep resp s').confirmed := by
  intro fuel
  induction fuel with
  | zero =>
    intro t s b hb
    simp only [runLoop] at hb
    simp at hb
  | succ fuel ih =>
    intro t s b hb
    rcases runLoop_succ_cases env wireTxs sigs fuel t s with
      ⟨x, _, heq⟩ | ⟨resp, _, _, heq⟩ | ⟨resp, hst, hcnt, hdue, _, heq⟩ |
      ⟨resp, hst, hcnt, heq⟩ <;>
      rw [heq] at hb <;>
      simp only [List.mem_cons, List.not_mem_nil, or_false] at hb
    · cases hb
    · cases hb
    · rcases hb with hb | hb | hb
      · cases hb
      · injection hb with h
        exact ⟨t, s, resp, Evolves.refl t s, hst, hdue, hcnt, h⟩
      · obtain ⟨t', s', resp', hev, hst', hdue', hcnt', hbatch⟩ :=
          ih (t + 1) (pollStep resp s) b hb
        exact ⟨t', s', resp', Evolves.step resp hst hev, hst', hdue', hcnt', hbatch⟩
    · rcases hb with hb | hb
      · cases hb
      · obtain ⟨t', s', resp', hev, hst', hdue', hcnt', hbatch⟩ :=
          ih (t + 1) (pollStep resp s) b hb
        exact ⟨t', s', resp', Evolves.step resp hst hev, hst', hdue', hcnt', hbatch⟩

/-! ## Selection properties of the resend batch -/

theorem getD_mem_of_lt (l : List Tx) (i : Nat) (hi : i < l.length) :
    l.getD i default ∈ l := by
  rw [List.getD_eq_getElem l default hi]
  exact List.getElem_mem hi

theorem enumFrom_filter_sublist (P : Nat → Bool) :
    ∀ (l : List Tx) (k : Nat),
      (((l.enumFrom k).filter fun p => P p.1).map Prod.snd).Sublist l := by
  intro l
  induction l with
  | nil => intro k; simp
  | cons x xs ih =>
    intro k
    rw [List.enumFrom_cons]
    rw [List.filter_cons]
    by_cases h : P k
    · simp only [h, if_pos]
      rw [List.map_cons]
      exact (ih (k + 1)).cons₂ x
    · simp only [h]
      rw [if_neg (by simpa using h)]
      exact (ih (k + 1)).cons x

theorem enumFrom_filter_mem (P : Nat → Bool) :
    ∀ (l : List Tx) (k i : Nat), i < l.length → P (k + i) = true →
      l.getD i default ∈ ((l.enumFrom k).filter fun p => P p.1).map Prod.snd := by
  intro l
  induction l with
  | nil => intro k i hi; simp at hi
  | cons x xs ih =>
    intro k i hi hP
    rw [List.enumFrom_cons, List.filter_cons]
    cases i with
    | zero =>
      simp only [Nat.add_zero] at hP
      simp only [hP, if_pos]
      simp
    | succ j =>
      simp only [List.length_cons] at hi
      have hmem := ih (k + 1) j (by omega) (by rw [show k + 1 + j = k + (j + 1) by omega]; exact hP)
      by_cases h : P k
      · simp only [h, if_pos, List.map_cons, List.getD_cons_succ]
        exact List.mem_cons_of_mem x hmem
      · simp only [h]
        rw [if_neg (by simpa using h)]
        simpa using hmem

theorem enumFrom_filter_not_mem (P : Nat → Bool) :
    ∀ (l : List Tx), l.Nodup → ∀ (k i : Nat), i < l.length → P (k + i) = false →
      l.getD i default ∉ ((l.enumFrom k).filter fun p => P p.1).map Prod.snd := by
  intro l
  induction l with
  | nil => intro _ k i hi; simp at hi
  | cons x xs ih =>
    intro hnd k i hi hP
    have hx : x ∉ xs := (List.nodup_cons.mp hnd).1
    have hnd' : xs.Nodup := (List.nodup_cons.mp hnd).2
    rw [List.enumFrom_cons, List.filter_cons]
    cases i with
    | zero =>
      simp only [Nat.add_zero] at hP
      rw [if_neg (by simp [hP])]
      simp only [List.getD_cons_zero]
      intro hmem
      have hsub := enumFrom_filter_sublist P xs (k + 1)
      exact hx (hsub.mem hmem)
    | succ j =>
      simp only [List.length_cons] at hi
      have hrec := ih hnd' (k + 1) j (by omega)
        (by rw [show k + 1 + j = k + (j + 1) by omega]; exact hP)
      simp only [List.getD_cons_succ]
      by_cases h : P k
      · simp only [h, if_pos, List.map_cons]
        intro hmem
        rcases List.mem_cons.mp hmem with heq | hmem'
        · have hj : xs.getD j default ∈ xs := getD_mem_of_lt xs j (by omega)
          rw [heq] at hj
          exact hx hj
        · exact hrec hmem'
      · simp only [h]
        rw [if_neg (by simpa using h)]
        exact hrec

theorem enumFrom_filter_from_index (P : Nat → Bool) :
    ∀ (l : List Tx) (k : Nat) (tx : Tx),
      tx ∈ ((l.enumFrom k).filter fun p => P p.1).map Prod.snd →
      ∃ i, i < l.length ∧ P (k + i) = true ∧ l.getD i default = tx := by
  intro l
  induction l with
  | nil => intro k tx htx; simp at htx
  | cons x xs ih =>
    intro k tx htx
    rw [List.enumFrom_cons, List.filter_cons] at htx
    by_cases h : P k
    · simp only [h, if_pos, List.map_cons] at htx
      rcases List.mem_cons.mp htx with hexq | hmem'
      · exact ⟨0, by simp, by simpa using h, by simpa using hexq.symm⟩
      · obtain ⟨j, hj, hP, hget⟩ := ih (k + 1) tx hmem'
        exact ⟨j + 1, by simp only [List.length_cons]; omega,
          by rw [show k + (j + 1) = k + 1 + j by omega]; exact hP,
          by simpa using hget⟩
    · simp only [h] at htx
      rw [if_neg (by simpa using h)] at htx
      obtain ⟨j, hj, hP, hget⟩ := ih (k + 1) tx htx
      exact ⟨j + 1, by simp only [List.length_cons]; omega,
        by rw [show k + (j + 1) = k + 1 + j by omega]; exact hP,
        by simpa using hget⟩

/-! ## Pipeline branch analysis -/

/-- Everything before the confirmation loop succeeded: the run reaches the
initial TPU broadcast and enters the loop. -/
def PreOk (env : Env) : Prop :=
  env.fileExists = true ∧
  (∃ d, env.readResult = .ok d) ∧
  (∃ k, env.programKeypair = .ok k) ∧
  (∃ r, env.bufferRent = .ok r) ∧
  (∃ r, env.programdataRent = .ok r) ∧
  (∃ s, env.createBufferSend = .ok s) ∧
  (∃ bh, env.blockhash = .ok bh) ∧
  (∃ q, env.quicNodes = .ok q ∧ q ≠ 0) ∧
  env.initialSend = .ok ()

/-- The confirmation-loop output of a run of `deploy_program env C _`. -/
def deployLoop (env : Env) (C : Nat) : List Event × Except String LoopState :=
  runLoop env (runWireTxs env C) ((runWireTxs env C).map Tx.sig)
    maxWaitSeconds 0 ⟨List.replicate (runWireTxs env C).length false, 0⟩

theorem deployFinalize_finalize_mem (env : Env) (immutable : Bool) (evs : List Event) :
    Event.finalizeSent ∈ (deployFinalize env immutable evs).1 := by
  unfold deployFinalize
  cases env.finalizeSend with
  | error e => simp
  | ok v =>
    by_cases him : immutable
    · simp only [him, if_pos]
      cases env.authoritySend with
      | error e => simp
      | ok w => simp
    · simp only [him, if_neg]
      simp

theorem deployFinalize_mem (env : Env) (immutable : Bool) (evs : List Event)
    (e : Event) (h1 : e ≠ Event.finalizeSent) (h2 : e ≠ Event.authorityRevoked) :
    e ∈ (deployFinalize env immutable evs).1 ↔ e ∈ evs := by
  unfold deployFinalize
  cases env.finalizeSend with
  | error x => simp [h1]
  | ok v =>
    by_cases him : immutable
    · simp only [him, if_pos]
      cases env.authoritySend with
      | error x => simp [h1, h2]
      | ok w => simp [h1, h2]
    · simp only [him, if_neg]
      simp [h1]

theorem deployFinalize_ok_iff (env : Env) (immutable : Bool) (evs : List Event) :
    (deployFinalize env immutable evs).2 = .ok () ↔
      (∃ v, env.finalizeSend = .ok v) ∧
      (immutable = true → ∃ w, env.authoritySend = .ok w) := by
  unfold deployFinalize
  cases env.finalizeSend with
  | error x => simp
  | ok v =>
    by_cases him : immutable
    · simp only [him, if_pos]
      cases env.authoritySend with
      | error x => simp
      | ok w => simp
    · simp only [him, if_neg]
      simp [him]

theorem deployTail_finalize_mem (env : Env) (wireTxs : List Tx) (immutable : Bool)
    (lo : List Event × Except String LoopState)
    (hno : Event.finalizeSent ∉ lo.1) :
    (Event.finalizeSent ∈ (deployTail env wireTxs immutable lo).1 ↔
      ∃ s, lo.2 = .ok s ∧ env.shutdownResult = .ok () ∧
        ¬ s.count < wireTxs.length) := by
  obtain ⟨levs, lres⟩ := lo
  simp only at hno
  unfold deployTail
  cases lres with
  | error e =>
    simp only
    constructor
    · intro h
      rcases List.mem_cons.mp h with h | h
      · cases h
      rcases List.mem_cons.mp h with h | h
      · cases h
      · exact absurd h hno
    · rintro ⟨s, hs, -⟩
      cases hs
  | ok s =>
    simp only
    cases hsd : env.shutdownResult with
    | error e =>
      simp only
      constructor
      · intro h
        rcases List.mem_cons.mp h with h | h
        · cases h
        rcases List.mem_cons.mp h with h | h
        · cases h
        rcases List.mem_append.mp h with h | h
        · exact absurd h hno
        · simp at h
      · rintro ⟨s', hs', hsd', -⟩
        cases hsd'
    | ok u =>
      by_cases hcnt : s.count < wireTxs.length
      · rw [if_pos hcnt]
        simp only
        constructor
        · intro h
          rcases List.mem_cons.mp h with h | h
          · cases h
          rcases List.mem_cons.mp h with h | h
          · cases h
          rcases List.mem_append.mp h with h | h
          · exact absurd h hno
          · simp at h
        · rintro ⟨s', hs', -, hcnt'⟩
          injection hs' with hs'
          exact absurd (hs' ▸ hcnt) hcnt'
      · rw [if_neg hcnt]
        constructor
        · intro _
          exact ⟨s, rfl, by cases u; rfl, hcnt⟩
        · intro _
          exact deployFinalize_finalize_mem env immutable _

theorem deployTail_shutdown_mem (env : Env) (wireTxs : List Tx) (immutable : Bool)
    (lo : List Event × Except String LoopState)
    (hno : Event.shutdownCalled ∉ lo.1) :
    (Event.shutdownCalled ∈ (deployTail env wireTxs immutable lo).1 ↔
      ∃ s, lo.2 = .ok s) := by
  obtain ⟨levs, lres⟩ := lo
  simp only at hno
  unfold deployTail
  cases lres with
  | error e =>
    simp only
    constructor
    · intro h
      rcases List.mem_cons.mp h with h | h
      · cases h
      rcases List.mem_cons.mp h with h | h
      · cases h
      · exact absurd h hno
    · rintro ⟨s, hs⟩
      cases hs
  | ok s =>
    simp only
    cases hsd : env.shutdownResult with
    | error e => simp
    | ok u =>
      by_cases hcnt : s.count < wireTxs.length
      · rw [if_pos hcnt]
        simp
      · rw [if_neg hcnt]
        constructor
        · intro _
          exact ⟨s, rfl⟩
        · intro _
          rw [deployFinalize_mem env immutable _ _ (by simp) (by simp)]
          simp

theorem deployTail_ok (env : Env) (wireTxs : List Tx) (immutable : Bool)
    (lo : List Event × Except String LoopState)
    (hok : (deployTail env wireTxs immutable lo).2 = .ok ()) :
    Event.finalizeSent ∈ (deployTail env wireTxs immutable lo).1 := by
  obtain ⟨levs, lres⟩ := lo
  unfold deployTail at hok ⊢
  cases lres with
  | error e => simp at hok
  | ok s =>
    simp only at hok ⊢
    cases hsd : env.shutdownResult with
    | error e =>
      rw [hsd] at hok
      simp at hok
    | ok u =>
      rw [hsd] at hok
      simp only at hok ⊢
      by_cases hcnt : s.count < wireTxs.length
      · rw [if_pos hcnt] at hok
        simp at hok
      · rw [if_neg hcnt] at hok ⊢
        exact deployFinalize_finalize_mem env immutable _

theorem deployTail_events (env : Env) (wireTxs : List Tx) (immutable : Bool)
    (lo : List Event × Except String LoopState) (e : Event)
    (he : e ∈ (deployTail env wireTxs immutable lo).1) :
    e ∈ lo.1 ∨ e = Event.createBufferSent ∨ e = Event.tpuInitialSent wireTxs ∨
    e = Event.shutdownCalled ∨ e = Event.finalizeSent ∨
    e = Event.authorityRevoked := by
  obtain ⟨levs, lres⟩ := lo
  unfold deployTail at he
  simp only
  cases lres with
  | error x =>
    simp only at he
    rcases List.mem_cons.mp he with h | h
    · exact Or.inr (Or.inl h)
    rcases List.mem_cons.mp h with h | h
    · exact Or.inr (Or.inr (Or.inl h))
    · exact Or.inl h
  | ok s =>
    simp only at he
    cases hsd : env.shutdownResult with
    | error x =>
      rw [hsd] at he
      simp only at he
      rcases List.mem_cons.mp he with h | h
      · exact Or.inr (Or.inl h)
      rcases List.mem_cons.mp h with h | h
      · exact Or.inr (Or.inr (Or.inl h))
      rcases List.mem_append.mp h with h | h
      · exact Or.inl h
      · simp only [List.mem_singleton] at h
        exact Or.inr (Or.inr (Or.inr (Or.inl h)))
    | ok u =>
      rw [hsd] at he
      simp only at he
      by_cases hcnt : s.count < wireTxs.length
      · rw [if_pos hcnt] at he
        rcases List.mem_cons.mp he with h | h
        · exact Or.inr (Or.inl h)
        rcases List.mem_cons.mp h with h | h
        · exact Or.inr (Or.inr (Or.inl h))
        rcases List.mem_append.mp h with h | h
        · exact Or.inl h
        · simp only [List.mem_singleton] at h
          exact Or.inr (Or.inr (Or.inr (Or.inl h)))
      · rw [if_neg hcnt] at he
        by_cases h1 : e = Event.finalizeSent
        · exact Or.inr (Or.inr (Or.inr (Or.inr (Or.inl h1))))
        by_cases h2 : e = Event.authorityRevoked
        · exact Or.inr (Or.inr (Or.inr (Or.inr (Or.inr h2))))
        rw [deployFinalize_mem env immutable _ e h1 h2] at he
        rcases List.mem_cons.mp he with h | h
        · exact Or.inr (Or.inl h)
        rcases List.mem_cons.mp h with h | h
        · exact Or.inr (Or.inr (Or.inl h))
        rcases List.mem_append.mp h with h | h
        · exact Or.inl h
        · simp only [List.mem_singleton] at h
          exact Or.inr (Or.inr (Or.inr (Or.inl h)))

/-- Master branch analysis of `deploy_program`: either every step up to the
loop succeeded and the run is the loop followed by `deployTail`, or some
earlier step failed, the result is an error, and the trace contains no
status query, resend, shutdown, finalize or fallback event. -/
theorem deploy_program_shape (env : Env) (C : Nat) (immutable : Bool) :
    (PreOk env ∧
      deploy_program env C immutable
        = deployTail env (runWireTxs env C) immutable (deployLoop env C)) ∨
    (¬ PreOk env ∧
      (∃ msg, (deploy_program env C immutable).2 = .error msg) ∧
      Event.finalizeSent ∉ (deploy_program env C immutable).1 ∧
      Event.shutdownCalled ∉ (deploy_program env C immutable).1 ∧
      (∀ q, Event.statusQueried q ∉ (deploy_program env C immutable).1) ∧
      (∀ b, Event.tpuResent b ∉ (deploy_program env C immutable).1) ∧
      (∀ i, Event.fallbackSubmitted i ∉ (deploy_program env C immutable).1)) := by
  by_cases hf : env.fileExists = false
  · have hdep : deploy_program env C immutable
        = ([], .error "Program file not found") := by
      unfold deploy_program
      simp only [if_pos hf]
    have hnp : ¬ PreOk env := by
      rintro ⟨h1, -⟩
      rw [hf] at h1
      cases h1
    refine Or.inr ⟨hnp, ⟨_, by rw [hdep]⟩, ?_, ?_, ?_, ?_, ?_⟩ <;> rw [hdep] <;> simp
  · cases hrd : env.readResult with
    | error e =>
      have hdep : deploy_program env C immutable = ([], .error e) := by
        unfold deploy_program
        simp only [if_neg hf, hrd]
      have hnp : ¬ PreOk env := by
        rintro ⟨-, ⟨d, hd⟩, -⟩
        rw [hrd] at hd
        cases hd
      refine Or.inr ⟨hnp, ⟨_, by rw [hdep]⟩, ?_, ?_, ?_, ?_, ?_⟩ <;> rw [hdep] <;> simp
    | ok d =>
      cases hpk : env.programKeypair with
      | error e =>
        have hdep : deploy_program env C immutable = ([], .error e) := by
          unfold deploy_program
          simp only [if_neg hf, hrd, hpk]
        have hnp : ¬ PreOk env := by
          rintro ⟨-, -, ⟨k, hk⟩, -⟩
          rw [hpk] at hk
          cases hk
        refine Or.inr ⟨hnp, ⟨_, by rw [hdep]⟩, ?_, ?_, ?_, ?_, ?_⟩ <;> rw [hdep] <;> simp
      | ok k =>
        cases hbr : env.bufferRent with
        | error e =>
          have hdep : deploy_program env C immutable = ([], .error e) := by
            unfold deploy_program
            simp only [if_neg hf, hrd, hpk, hbr]
          have hnp : ¬ PreOk env := by
            rintro ⟨-, -, -, ⟨r, hr⟩, -⟩
            rw [hbr] at hr
            cases hr
          refine Or.inr ⟨hnp, ⟨_, by rw [hdep]⟩, ?_, ?_, ?_, ?_, ?_⟩ <;> rw [hdep] <;> simp
        | ok r1 =>
          cases hpr : env.programdataRent with
          | error e =>
            have hdep : deploy_program env C immutable = ([], .error e) := by
              unfold deploy_program
              simp only [if_neg hf, hrd, hpk, hbr, hpr]
            have hnp : ¬ PreOk env := by
              rintro ⟨-, -, -, -, ⟨r, hr⟩, -⟩
              rw [hpr] at hr
              cases hr
            refine Or.inr ⟨hnp, ⟨_, by rw [hdep]⟩, ?_, ?_, ?_, ?_, ?_⟩ <;>
              rw [hdep] <;> simp
          | ok r2 =>
            cases hcb : env.createBufferSend with
            | error e =>
              have hdep : deploy_program env C immutable
                  = ([Event.createBufferSent], .error e) := by
                unfold deploy_program
                simp only [if_neg hf, hrd, hpk, hbr, hpr, hcb]
              have hnp : ¬ PreOk env := by
                rintro ⟨-, -, -, -, -, ⟨cs, hc⟩, -⟩
                rw [hcb] at hc
                cases hc
              refine Or.inr ⟨hnp, ⟨_, by rw [hdep]⟩, ?_, ?_, ?_, ?_, ?_⟩ <;>
                rw [hdep] <;> simp
            | ok cs =>
              cases hbh : env.blockhash with
              | error e =>
                have hdep : deploy_program env C immutable
                    = ([Event.createBufferSent], .error e) := by
                  unfold deploy_program
                  simp only [if_neg hf, hrd, hpk, hbr, hpr, hcb, hbh]
                have hnp : ¬ PreOk env := by
                  rintro ⟨-, -, -, -, -, -, ⟨bh, hb⟩, -⟩
                  rw [hbh] at hb
                  cases hb
                refine Or.inr ⟨hnp, ⟨_, by rw [hdep]⟩, ?_, ?_, ?_, ?_, ?_⟩ <;>
                  rw [hdep] <;> simp
              | ok bh =>
                cases hqn : env.quicNodes with
                | error e =>
                  have hdep : deploy_program env C immutable
                      = ([Event.createBufferSent], .error e) := by
                    unfold deploy_program
                    simp only [if_neg hf, hrd, hpk, hbr, hpr, hcb, hbh, hqn]
                  have hnp : ¬ PreOk env := by
                    rintro ⟨-, -, -, -, -, -, -, ⟨q, hq, -⟩, -⟩
                    rw [hqn] at hq
                    cases hq
                  refine Or.inr ⟨hnp, ⟨_, by rw [hdep]⟩, ?_, ?_, ?_, ?_, ?_⟩ <;>
                    rw [hdep] <;> simp
                | ok q =>
                  by_cases hq0 : q = 0
                  · have hdep : deploy_program env C immutable
                        = ([Event.createBufferSent],
                            .error "No TPU addresses found in cluster") := by
                      unfold deploy_program
                      simp only [if_neg hf, hrd, hpk, hbr, hpr, hcb, hbh, hqn, if_pos hq0]
                    have hnp : ¬ PreOk env := by
                      rintro ⟨-, -, -, -, -, -, -, ⟨q', hq, hq0'⟩, -⟩
                      rw [hqn] at hq
                      injection hq with hq
                      exact hq0' (hq ▸ hq0)
                    refine Or.inr ⟨hnp, ⟨_, by rw [hdep]⟩, ?_, ?_, ?_, ?_, ?_⟩ <;>
                      rw [hdep] <;> simp
                  · cases his : env.initialSend with
                    | error e =>
                      have hdep : deploy_program env C immutable
                          = ([Event.createBufferSent,
                              Event.tpuInitialSent
                                (buildWriteTxs env.payer env.bufferKey bh C d)],
                              .error "Failed to send write transactions via TPU") := by
                        unfold deploy_program
                        simp only [if_neg hf, hrd, hpk, hbr, hpr, hcb, hbh, hqn,
                          if_neg hq0, his]
                      have hnp : ¬ PreOk env := by
                        rintro ⟨-, -, -, -, -, -, -, -, hi⟩
                        rw [his] at hi
                        cases hi
                      refine Or.inr ⟨hnp, ⟨_, by rw [hdep]⟩, ?_, ?_, ?_, ?_, ?_⟩ <;>
                        rw [hdep] <;> simp
                    | ok u =>
                      cases u
                      have hw : runWireTxs env C
                          = buildWriteTxs env.payer env.bufferKey bh C d := by
                        unfold runWireTxs
                        rw [hrd, hbh]
                      have hdep : deploy_program env C immutable
                          = deployTail env (runWireTxs env C) immutable
                              (deployLoop env C) := by
                        unfold deploy_program
                        simp only [if_neg hf, hrd, hpk, hbr, hpr, hcb, hbh, hqn,
                          if_neg hq0, his]
                        unfold deployLoop
                        rw [hw]
                      have hft : env.fileExists = true := by
                        cases hfe : env.fileExists
                        · exact absurd hfe hf
                        · rfl
                      exact Or.inl ⟨⟨hft,
                        ⟨d, hrd⟩, ⟨k, hpk⟩, ⟨r1, hbr⟩, ⟨r2, hpr⟩, ⟨cs, hcb⟩,
                        ⟨bh, hbh⟩, ⟨q, hqn, hq0⟩, his⟩, hdep⟩

theorem runLoop_no_finalize (env : Env) (wireTxs : List Tx) (sigs : List Sig)
    (fuel t : Nat) (s : LoopState) :
    Event.finalizeSent ∉ (runLoop env wireTxs sigs fuel t s).1 := by
  intro h
  rcases runLoop_events env wireTxs sigs fuel t s _ h with ⟨q, hq⟩ | ⟨b, hb⟩
  · cases hq
  · cases hb

theorem runLoop_no_shutdown (env : Env) (wireTxs : List Tx) (sigs : List Sig)
    (fuel t : Nat) (s : LoopState) :
    Event.shutdownCalled ∉ (runLoop env wireTxs sigs fuel t s).1 := by
  intro h
  rcases runLoop_events env wireTxs sigs fuel t s _ h with ⟨q, hq⟩ | ⟨b, hb⟩
  · cases hq
  · cases hb

theorem runLoop_no_fallback (env : Env) (wireTxs : List Tx) (sigs : List Sig)
    (fuel t : Nat) (s : LoopState) (i : Nat) :
    Event.fallbackSubmitted i ∉ (runLoop env wireTxs sigs fuel t s).1 := by
  intro h
  rcases runLoop_events env wireTxs sigs fuel t s _ h with ⟨q, hq⟩ | ⟨b, hb⟩
  · cases hq
  · cases hb

theorem initState_inv (n : Nat) : LoopInv n ⟨List.replicate n false, 0⟩ := by
  constructor
  · simp
  · rw [List.count_replicate]
    simp

theorem deployTail_guard_error (env : Env) (wireTxs : List Tx) (immutable : Bool)
    (levs : List Event) (s : LoopState) (hlt : s.count < wireTxs.length) :
    ∃ msg, (deployTail env wireTxs immutable (levs, .ok s)).2 = .error msg := by
  unfold deployTail
  simp only
  cases env.shutdownResult with
  | error e => exact ⟨_, rfl⟩
  | ok u =>
    rw [if_pos hlt]
    exact ⟨_, rfl⟩

/-- `runLoop` reads only `statuses` and `resendDue` from the oracle. -/
theorem runLoop_env_congr (e1 e2 : Env) (hst : e1.statuses = e2.statuses)
    (hdue : e1.resendDue = e2.resendDue) (wireTxs : List Tx) (sigs : List Sig) :
    ∀ fuel t s, runLoop e1 wireTxs sigs fuel t s = runLoop e2 wireTxs sigs fuel t s := by
  intro fuel
  induction fuel with
  | zero => intro t s; rfl
  | succ g ih =>
    intro t s
    simp only [runLoop, hst, hdue]
    cases e2.statuses t with
    | error e => rfl
    | ok resp =>
      simp only
      by_cases hdone : (pollStep resp s).count = wireTxs.length
      · rw [if_pos hdone, if_pos hdone]
      · rw [if_neg hdone, if_neg hdone]
        by_cases hd : e2.resendDue t
        · rw [if_pos hd, if_pos hd]
          by_cases hempty :
              (unconfirmedBatch wireTxs (pollStep resp s).confirmed).isEmpty
          · rw [if_pos hempty, if_pos hempty, ih]
          · rw [if_neg hempty, if_neg hempty, ih]
        · rw [if_neg hd, if_neg hd, ih]

/-- `deployTail` reads only `shutdownResult`, `finalizeSend`, `authoritySend`. -/
theorem deployTail_env_congr (e1 e2 : Env)
    (h1 : e1.shutdownResult = e2.shutdownResult)
    (h2 : e1.finalizeSend = e2.finalizeSend)
    (h3 : e1.authoritySend = e2.authoritySend) :
    ∀ (wireTxs : List Tx) (immutable : Bool)
      (lo : List Event × Except String LoopState),
      deployTail e1 wireTxs immutable lo = deployTail e2 wireTxs immutable lo := by
  intro wireTxs immutable lo
  unfold deployTail deployFinalize
  rw [h1, h2, h3]

/-! ## Claim theorems for the pipeline -/

/-- Claim C2: the finalize (deploy-from-buffer) instruction is built and sent only
if the confirmation loop ended with every chunk `Confirmed`
(`confirmed_count` equal to the number of chunks, all flags `true`); if any
chunk is unconfirmed when the loop ends, deploy fails with an error and the
finalize instruction is never sent. -/
theorem finalize_only_when_all_confirmed (env : Env) (C : Nat) (immutable : Bool) :
    (Event.finalizeSent ∈ (deploy_program env C immutable).1 →
      ∃ levs s, deployLoop env C = (levs, .ok s) ∧
        s.count = (runWireTxs env C).length ∧
        s.confirmed.length = (runWireTxs env C).length ∧
        ∀ i < s.confirmed.length, s.confirmed.getD i false = true) ∧
    (∀ levs s, deployLoop env C = (levs, .ok s) →
      s.count < (runWireTxs env C).length →
      Event.finalizeSent ∉ (deploy_program env C immutable).1 ∧
      ∃ msg, (deploy_program env C immutable).2 = .error msg) := by
  rcases deploy_program_shape env C immutable with ⟨hpre, hdep⟩ |
    ⟨hnp, ⟨msg, herr⟩, hnofin, -⟩
  · constructor
    · intro h
      rw [hdep] at h
      rcases hLO : deployLoop env C with ⟨levs0, lres0⟩
      rw [hLO] at h
      have hloeq : runLoop env (runWireTxs env C) ((runWireTxs env C).map Tx.sig)
          maxWaitSeconds 0
          ⟨List.replicate (runWireTxs env C).length false, 0⟩ = (levs0, lres0) := hLO
      have hno : Event.finalizeSent ∉ levs0 := by
        have := runLoop_no_finalize env (runWireTxs env C)
          ((runWireTxs env C).map Tx.sig) maxWaitSeconds 0
          ⟨List.replicate (runWireTxs env C).length false, 0⟩
        rw [hloeq] at this
        exact this
      obtain ⟨s, hs, hsd, hcnt⟩ :=
        (deployTail_finalize_mem env (runWireTxs env C) immutable (levs0, lres0)
          hno).mp h
      simp only at hs
      subst hs
      have hinv : LoopInv (runWireTxs env C).length s :=
        runLoop_inv env (runWireTxs env C) ((runWireTxs env C).map Tx.sig)
          maxWaitSeconds 0 _ levs0 s hloeq
          (initState_inv (runWireTxs env C).length)
      have hle := loopInv_count_le _ _ hinv
      have hceq : s.count = (runWireTxs env C).length := by omega
      exact ⟨levs0, s, rfl, hceq, hinv.1,
        loopInv_all_confirmed _ _ hinv hceq⟩
    · intro levs s hLO hlt
      constructor
      · intro h
        rw [hdep, hLO] at h
        have hloeq : runLoop env (runWireTxs env C) ((runWireTxs env C).map Tx.sig)
            maxWaitSeconds 0
            ⟨List.replicate (runWireTxs env C).length false, 0⟩
            = (levs, .ok s) := hLO
        have hno : Event.finalizeSent ∉ levs := by
          have := runLoop_no_finalize env (runWireTxs env C)
            ((runWireTxs env C).map Tx.sig) maxWaitSeconds 0
            ⟨List.replicate (runWireTxs env C).length false, 0⟩
          rw [hloeq] at this
          exact this
        obtain ⟨s', hs', -, hcnt'⟩ :=
          (deployTail_finalize_mem env (runWireTxs env C) immutable
            (levs, .ok s) hno).mp h
        simp only at hs'
        injection hs' with hs'
        exact hcnt' (hs' ▸ hlt)
      · rw [hdep, hLO]
        exact deployTail_guard_error env (runWireTxs env C) immutable levs s hlt
  · constructor
    · intro h
      exact absurd h hnofin
    · intro levs s _ _
      exact ⟨hnofin, msg, herr⟩

/-- Claim C3 (amended): the pipeline performs no reliable-path fallback
submissions at all — on no execution does any `fallbackSubmitted` event
occur; when the fast path exhausts `max_wait` with chunks still
unconfirmed, deploy fails with an error instead of falling back. -/
theorem no_fallback_submissions (env : Env) (C : Nat) (immutable : Bool) :
    (∀ i, Event.fallbackSubmitted i ∉ (deploy_program env C immutable).1) ∧
    (∀ levs s, deployLoop env C = (levs, .ok s) →
      s.count < (runWireTxs env C).length →
      ∃ msg, (deploy_program env C immutable).2 = .error msg) := by
  rcases deploy_program_shape env C immutable with ⟨hpre, hdep⟩ |
    ⟨-, ⟨msg, herr⟩, -, -, -, -, hnofb⟩
  · constructor
    · intro i h
      rw [hdep] at h
      rcases deployTail_events env (runWireTxs env C) immutable _ _ h with
        hin | h | h | h | h | h
      · exact runLoop_no_fallback env (runWireTxs env C)
          ((runWireTxs env C).map Tx.sig) maxWaitSeconds 0
          ⟨List.replicate (runWireTxs env C).length false, 0⟩ i hin
      · cases h
      · cases h
      · cases h
      · cases h
      · cases h
    · intro levs s hLO hlt
      rw [hdep, hLO]
      exact deployTail_guard_error env (runWireTxs env C) immutable levs s hlt
  · exact ⟨fun i => hnofb i, fun _ _ _ _ => ⟨msg, herr⟩⟩

/-- Claim C5: a chunk's confirmed flag is monotonic — once `true` it stays `true`
through every later poll round of the confirmation loop, and through each
single poll update. -/
theorem confirmed_flag_monotonic (env : Env) (wireTxs : List Tx) (sigs : List Sig)
    (fuel t : Nat) (s : LoopState) (evs : List Event) (s' : LoopState)
    (hrun : runLoop env wireTxs sigs fuel t s = (evs, .ok s')) :
    (∀ i, s.confirmed.getD i false = true → s'.confirmed.getD i false = true) ∧
    (∀ resp s0 i, s0.confirmed.getD i false = true →
      (pollStep resp s0).confirmed.getD i false = true) :=
  ⟨fun i hi => runLoop_monotone env wireTxs sigs fuel t s evs s' hrun i hi,
   fun resp s0 i hi => pollStep_monotone resp s0 i hi⟩

/-- Claim C6 (amended): every batched status query of a run passes the full list
of chunk signatures — the signatures of already-confirmed chunks are
re-queried, not excluded. -/
theorem status_queries_are_full_batch (env : Env) (C : Nat) (immutable : Bool)
    (q : List Sig)
    (h : Event.statusQueried q ∈ (deploy_program env C immutable).1) :
    q = (runWireTxs env C).map Tx.sig := by
  rcases deploy_program_shape env C immutable with ⟨hpre, hdep⟩ |
    ⟨-, -, -, -, hnq, -⟩
  · rw [hdep] at h
    rcases deployTail_events env (runWireTxs env C) immutable _ _ h with
      hin | h | h | h | h | h
    · exact runLoop_query_args env (runWireTxs env C)
        ((runWireTxs env C).map Tx.sig) maxWaitSeconds 0
        ⟨List.replicate (runWireTxs env C).length false, 0⟩ q hin
    · cases h
    · cases h
    · cases h
    · cases h
    · cases h
  · exact absurd h (hnq q)

/-- Claim C8 (amended): the TPU client is shut down exactly when the run reaches
the confirmation loop and the loop completes without an error — on an error
inside the loop (a failed status query), deploy returns without calling
shutdown. -/
theorem shutdown_called_iff_loop_completed (env : Env) (C : Nat) (immutable : Bool) :
    Event.shutdownCalled ∈ (deploy_program env C immutable).1 ↔
      (PreOk env ∧ ∃ levs s, deployLoop env C = (levs, .ok s)) := by
  rcases deploy_program_shape env C immutable with ⟨hpre, hdep⟩ |
    ⟨hnp, -, -, hnsd, -⟩
  · rw [hdep]
    rcases hLO : deployLoop env C with ⟨levs0, lres0⟩
    have hloeq : runLoop env (runWireTxs env C) ((runWireTxs env C).map Tx.sig)
        maxWaitSeconds 0
        ⟨List.replicate (runWireTxs env C).length false, 0⟩ = (levs0, lres0) := hLO
    have hno : Event.shutdownCalled ∉ levs0 := by
      have := runLoop_no_shutdown env (runWireTxs env C)
        ((runWireTxs env C).map Tx.sig) maxWaitSeconds 0
        ⟨List.replicate (runWireTxs env C).length false, 0⟩
      rw [hloeq] at this
      exact this
    rw [deployTail_shutdown_mem env (runWireTxs env C) immutable _ hno]
    constructor
    · rintro ⟨s, hs⟩
      simp only at hs
      exact ⟨hpre, levs0, s, by rw [hs]⟩
    · rintro ⟨-, levs, s, heq⟩
      injection heq with h1 h2
      exact ⟨s, by simp only; rw [h2]⟩
  · constructor
    · intro h
      exact absurd h hnsd
    · rintro ⟨hpre, -⟩
      exact absurd hpre hnp

theorem deploy_resendResult_congr (env : Env) (f : Nat → Except String Unit)
    (C : Nat) (immutable : Bool) :
    deploy_program { env with resendResult := f } C immutable
      = deploy_program env C immutable := by
  have hLoop := runLoop_env_congr { env with resendResult := f } env rfl rfl
  have hTail := deployTail_env_congr { env with resendResult := f } env rfl rfl rfl
  unfold deploy_program
  simp only [hLoop, hTail]

/-- Claim C7 (amended): per-transaction failures of the *resend* broadcasts are
never surfaced — the run is entirely independent of the resend-send
results (`let _ = …`) — but a failure of the *initial* batch send aborts
the deployment with an error. -/
theorem resend_failures_absorbed_initial_send_fatal (env : Env) (C : Nat)
    (immutable : Bool) :
    (∀ f, deploy_program { env with resendResult := f } C immutable
        = deploy_program env C immutable) ∧
    (∀ e, env.initialSend = .error e →
      ∃ msg, (deploy_program env C immutable).2 = .error msg) := by
  constructor
  · intro f
    exact deploy_resendResult_congr env f C immutable
  · intro e he
    rcases deploy_program_shape env C immutable with ⟨hpre, -⟩ | ⟨-, hmsg, -⟩
    · have his : env.initialSend = .ok () := hpre.2.2.2.2.2.2.2.2
      rw [he] at his
      cases his
    · exact hmsg

/-- Claim C4: every resend round's batch is exactly the serialized transactions
of the currently unconfirmed chunks: it is `unconfirmedBatch` of the flag
vector reached by the oracle's own poll responses (so resends are only of
still-unconfirmed work), it is a sublist of the originally serialized wire
transactions (byte-identical, same order, not rebuilt), it contains the
transaction of every unconfirmed index, and (for distinct wire
transactions) no confirmed chunk's transaction. -/
theorem resend_batch_exactly_unconfirmed (env : Env) (wireTxs : List Tx)
    (sigs : List Sig) :
    (∀ fuel t s b, Event.tpuResent b ∈ (runLoop env wireTxs sigs fuel t s).1 →
      ∃ t' s' resp, Evolves env t s t' s' ∧ env.statuses t' = .ok resp ∧
        env.resendDue t' = true ∧
        (pollStep resp s').count ≠ wireTxs.length ∧
        b = unconfirmedBatch wireTxs (pollStep resp s').confirmed) ∧
    (∀ conf, (unconfirmedBatch wireTxs conf).Sublist wireTxs) ∧
    (∀ conf i, i < wireTxs.length → conf.getD i false = false →
      wireTxs.getD i default ∈ unconfirmedBatch wireTxs conf) ∧
    (wireTxs.Nodup → ∀ conf i, i < wireTxs.length → conf.getD i false = true →
      wireTxs.getD i default ∉ unconfirmedBatch wireTxs conf) ∧
    (∀ conf tx, tx ∈ unconfirmedBatch wireTxs conf →
      ∃ i, i < wireTxs.length ∧ conf.getD i false = false ∧
        wireTxs.getD i default = tx) := by
  refine ⟨runLoop_resent_batches env wireTxs sigs, ?_, ?_, ?_, ?_⟩
  · intro conf
    exact enumFrom_filter_sublist (fun j => !conf.getD j false) wireTxs 0
  · intro conf i hi hconf
    have := enumFrom_filter_mem (fun j => !conf.getD j false) wireTxs 0 i hi
      (by simp only [Nat.zero_add]; rw [hconf]; rfl)
    simpa [unconfirmedBatch] using this
  · intro hnd conf i hi hconf
    have := enumFrom_filter_not_mem (fun j => !conf.getD j false) wireTxs hnd 0 i hi
      (by simp only [Nat.zero_add]; rw [hconf]; rfl)
    simpa [unconfirmedBatch] using this
  · intro conf tx htx
    have := enumFrom_filter_from_index (fun j => !conf.getD j false) wireTxs 0 tx
      (by simpa [unconfirmedBatch] using htx)
    obtain ⟨i, hi, hP, hget⟩ := this
    refine ⟨i, hi, ?_, hget⟩
    simp only [Nat.zero_add] at hP
    cases hval : conf.getD i false
    · rfl
    · rw [hval] at hP
      cases hP

/-- Claim C9 (amended): an empty (zero-byte) payload file is *not* rejected: when
the file exists and the external steps succeed, the pipeline creates the
storage allocation, broadcasts an empty chunk batch, and sends the finalize
instruction, returning success.  Only a *missing* payload file fails early,
before any storage allocation, with an input error. -/
theorem empty_payload_not_rejected (env : Env) (C : Nat)
    (h1 : env.fileExists = true) (h2 : env.readResult = .ok [])
    (h3 : ∃ k, env.programKeypair = .ok k)
    (h4 : ∃ r, env.bufferRent = .ok r)
    (h5 : ∃ r, env.programdataRent = .ok r)
    (h6 : ∃ u, env.createBufferSend = .ok u)
    (h7 : ∃ bh, env.blockhash = .ok bh)
    (h8 : ∃ q, env.quicNodes = .ok q ∧ q ≠ 0)
    (h9 : env.initialSend = .ok ())
    (h10 : ∃ resp, env.statuses 0 = .ok resp)
    (h11 : env.shutdownResult = .ok ())
    (h12 : ∃ v, env.finalizeSend = .ok v) :
    (deploy_program env C false).2 = .ok () ∧
    Event.createBufferSent ∈ (deploy_program env C false).1 ∧
    Event.finalizeSent ∈ (deploy_program env C false).1 ∧
    (∀ env' C' imm', env'.fileExists = false →
      deploy_program env' C' imm' = ([], .error "Program file not found")) := by
  obtain ⟨bh, hbh⟩ := h7
  obtain ⟨resp, hresp⟩ := h10
  obtain ⟨v, hv⟩ := h12
  have hW : runWireTxs env C = [] := by
    unfold runWireTxs
    rw [h2, hbh]
    simp [buildWriteTxs, chunksOf_nil]
  have hLO : deployLoop env C = ([Event.statusQueried []], .ok ⟨[], 0⟩) := by
    unfold deployLoop
    rw [hW]
    simp only [List.map_nil, List.length_nil, List.replicate_zero]
    show runLoop env [] [] (59 + 1) 0 ⟨[], 0⟩ = _
    rcases runLoop_succ_cases env [] [] 59 0 ⟨[], 0⟩ with
      ⟨e, he, -⟩ | ⟨resp', hr, hcnt, heq⟩ | ⟨resp', hr, hcnt, -, -, -⟩ |
      ⟨resp', hr, hcnt, -⟩
    · rw [hresp] at he
      cases he
    · rw [heq]
      rfl
    · exact absurd rfl hcnt
    · exact absurd rfl hcnt
  have htail : deployTail env [] false ([Event.statusQueried []], .ok ⟨[], 0⟩)
      = ([Event.createBufferSent, Event.tpuInitialSent [], Event.statusQueried [],
          Event.shutdownCalled, Event.finalizeSent], .ok ()) := by
    unfold deployTail deployFinalize
    simp [h11, hv]
  rcases deploy_program_shape env C false with ⟨hpre, hdep⟩ | ⟨hnp, -⟩
  · rw [hdep, hLO, hW, htail]
    refine ⟨rfl, by simp, by simp, ?_⟩
    intro env' C' imm' hfe
    unfold deploy_program
    rw [if_pos hfe]
  · exact absurd ⟨h1, ⟨[], h2⟩, h3, h4, h5, h6, ⟨bh, hbh⟩, h8, h9⟩ hnp

/-! ## Concrete runs -/

/-- Recognizer for fallback events (used to count them in concrete runs). -/
def isFallback : Event → Bool
  | Event.fallbackSubmitted _ => true
  | _ => false

/-- Recognizer for status-query events. -/
def isStatusQuery : Event → Bool
  | Event.statusQueried _ => true
  | _ => false

/-- A fully successful oracle over a 5-byte payload (two chunks at
`CHUNK_SIZE = 4`), both confirmed by the first poll round. -/
def envBase : Env :=
  { payer := "payer"
    bufferKey := "buffer"
    fileExists := true
    readResult := .ok [1, 2, 3, 4, 5]
    programKeypair := .ok "program"
    bufferRent := .ok 100
    programdataRent := .ok 200
    createBufferSend := .ok 1
    blockhash := .ok 9
    quicNodes := .ok 3
    initialSend := .ok ()
    statuses := fun _ => .ok [true, true]
    resendDue := fun _ => false
    resendResult := fun _ => .ok ()
    shutdownResult := .ok ()
    finalizeSend := .ok 2
    authoritySend := .ok 3 }

/-- Chunk 0 confirms in round 0, chunk 1 only in round 1. -/
def envC6 : Env :=
  { envBase with statuses := fun t => if t = 0 then .ok [true, false] else .ok [true, true] }

/-- Like `envC6` but the resend interval has elapsed at round 0, so round 0
re-broadcasts the still-unconfirmed chunk 1. -/
def envResend : Env :=
  { envBase with
    statuses := fun t => if t = 0 then .ok [true, false] else .ok [true, true]
    resendDue := fun t => t == 0 }

/-- A single-chunk payload whose transaction never confirms: the fast path
exhausts all 60 rounds. -/
def envStall : Env :=
  { envBase with
    readResult := .ok [7]
    statuses := fun _ => .ok [false] }

/-- The initial TPU batch send fails. -/
def envInitFail : Env :=
  { envBase with initialSend := .error "io" }

/-- The first status query inside the confirmation loop fails. -/
def envLoopFail : Env :=
  { envBase with statuses := fun _ => .error "rpc down" }

/-- The payload file exists but is empty (zero bytes). -/
def envEmpty : Env :=
  { envBase with readResult := .ok [] }

/-- Witness for `finalize_only_when_all_confirmed`: on the fully successful
run both chunks confirm in round 0 and finalize is sent. -/
theorem finalize_only_when_all_confirmed_witness :
    Event.finalizeSent ∈ (deploy_program envBase 4 false).1 ∧
    (∃ levs s, deployLoop envBase 4 = (levs, .ok s) ∧
      s.count = (runWireTxs envBase 4).length ∧
      s.confirmed.length = (runWireTxs envBase 4).length ∧
      ∀ i < s.confirmed.length, s.confirmed.getD i false = true) :=
  ⟨by decide, (finalize_only_when_all_confirmed envBase 4 false).1 (by decide)⟩

/-- Counterexample for C3: with one chunk stalling past `max_wait`, the claim's
predicted `N = 1` fallback submissions do not happen — zero fallback
submissions occur and deploy fails with an error instead. -/
theorem no_fallback_counterexample :
    (deploy_program envStall 4 false).2
      = .error "chunks unconfirmed via QUIC after max wait" ∧
    ((deploy_program envStall 4 false).1.filter isFallback) = [] ∧
    (deployLoop envStall 4).2 = .ok ⟨[false], 0⟩ ∧
    (runWireTxs envStall 4).length = 1 := by
  refine ⟨rfl, ?_, rfl, rfl⟩
  decide

/-- Witness for `no_fallback_submissions` at the stalled run. -/
theorem no_fallback_submissions_witness :
    (deployLoop envStall 4 = ((deployLoop envStall 4).1, .ok ⟨[false], 0⟩) ∧
      (⟨[false], 0⟩ : LoopState).count < (runWireTxs envStall 4).length) ∧
    (∃ msg, (deploy_program envStall 4 false).2 = .error msg) :=
  ⟨⟨rfl, by decide⟩,
    (no_fallback_submissions envStall 4 false).2 (deployLoop envStall 4).1
      ⟨[false], 0⟩ rfl (by decide)⟩

/-- Witness for `resend_batch_exactly_unconfirmed`: in `envResend`, round 0
confirms only chunk 0 and the elapsed resend interval re-broadcasts exactly
chunk 1's transaction. -/
theorem resend_batch_exactly_unconfirmed_witness :
    Event.tpuResent [(runWireTxs envResend 4).getD 1 default]
      ∈ (runLoop envResend (runWireTxs envResend 4)
          ((runWireTxs envResend 4).map Tx.sig) 60 0
          ⟨[false, false], 0⟩).1 ∧
    (∃ t' s' resp, Evolves envResend 0 ⟨[false, false], 0⟩ t' s' ∧
      envResend.statuses t' = .ok resp ∧
      envResend.resendDue t' = true ∧
      (pollStep resp s').count ≠ (runWireTxs envResend 4).length ∧
      [(runWireTxs envResend 4).getD 1 default]
        = unconfirmedBatch (runWireTxs envResend 4) (pollStep resp s').confirmed) :=
  ⟨by decide,
    (resend_batch_exactly_unconfirmed envResend (runWireTxs envResend 4)
      ((runWireTxs envResend 4).map Tx.sig)).1 60 0 ⟨[false, false], 0⟩
      [(runWireTxs envResend 4).getD 1 default] (by decide)⟩

/-- Witness for `confirmed_flag_monotonic`: a state with chunk 0 already
confirmed stays confirmed through the poll round that confirms chunk 1. -/
theorem confirmed_flag_monotonic_witness :
    runLoop envBase (runWireTxs envBase 4) ((runWireTxs envBase 4).map Tx.sig)
      1 0 ⟨[true, false], 1⟩
      = ([Event.statusQueried ((runWireTxs envBase 4).map Tx.sig)],
          .ok ⟨[true, true], 2⟩) ∧
    ((∀ i, (⟨[true, false], 1⟩ : LoopState).confirmed.getD i false = true →
        (⟨[true, true], 2⟩ : LoopState).confirmed.getD i false = true) ∧
     (∀ resp s0 i, s0.confirmed.getD i false = true →
        (pollStep resp s0).confirmed.getD i false = true)) :=
  ⟨rfl, confirmed_flag_monotonic envBase (runWireTxs envBase 4)
    ((runWireTxs envBase 4).map Tx.sig) 1 0 ⟨[true, false], 1⟩
    [Event.statusQueried ((runWireTxs envBase 4).map Tx.sig)]
    ⟨[true, true], 2⟩ rfl⟩

/-- Counterexample for C6: chunk 0 is confirmed by round 0's poll, yet round 1's
batched status query still passes *both* signatures — not just the
unconfirmed chunk 1's signature, as the claim demands. -/
theorem status_query_counterexample :
    envC6.statuses 0 = .ok [true, false] ∧
    ((deploy_program envC6 4 false).1.filter isStatusQuery)
      = [Event.statusQueried ((runWireTxs envC6 4).map Tx.sig),
         Event.statusQueried ((runWireTxs envC6 4).map Tx.sig)] ∧
    (runWireTxs envC6 4).map Tx.sig
      ≠ [((runWireTxs envC6 4).getD 1 default).sig] := by
  refine ⟨rfl, ?_, ?_⟩ <;> decide

/-- Witness for `status_queries_are_full_batch`. -/
theorem status_queries_are_full_batch_witness :
    Event.statusQueried ((runWireTxs envC6 4).map Tx.sig)
      ∈ (deploy_program envC6 4 false).1 ∧
    (runWireTxs envC6 4).map Tx.sig = (runWireTxs envC6 4).map Tx.sig :=
  ⟨by decide,
    status_queries_are_full_batch envC6 4 false _ (by decide)⟩

/-- Counterexample for C7: a failed *initial* batch send is surfaced — deploy
returns an error, contradicting the claim that fast-transport send failures
are never surfaced. -/
theorem initial_send_failure_surfaces :
    deploy_program envInitFail 4 false
      = ([Event.createBufferSent, Event.tpuInitialSent (runWireTxs envInitFail 4)],
         .error "Failed to send write transactions via TPU") := rfl

/-- Witness for `resend_failures_absorbed_initial_send_fatal`. -/
theorem resend_failures_absorbed_witness :
    envInitFail.initialSend = .error "io" ∧
    (∃ msg, (deploy_program envInitFail 4 false).2 = .error msg) :=
  ⟨rfl, (resend_failures_absorbed_initial_send_fatal envInitFail 4 false).2 "io" rfl⟩

/-- Counterexample for C8: when the first status query fails inside the loop,
deploy returns the error without ever calling `client.shutdown()` — the
trace ends at the status query. -/
theorem loop_error_skips_shutdown :
    deploy_program envLoopFail 4 false
      = ([Event.createBufferSent, Event.tpuInitialSent (runWireTxs envLoopFail 4),
          Event.statusQueried ((runWireTxs envLoopFail 4).map Tx.sig)],
         .error "rpc down") ∧
    Event.shutdownCalled ∉ (deploy_program envLoopFail 4 false).1 :=
  ⟨rfl, by decide⟩

/-- Witness for `shutdown_called_iff_loop_completed`. -/
theorem shutdown_called_iff_witness :
    Event.shutdownCalled ∈ (deploy_program envBase 4 false).1 ↔
      (PreOk envBase ∧ ∃ levs s, deployLoop envBase 4 = (levs, .ok s)) :=
  shutdown_called_iff_loop_completed envBase 4 false

/-- Counterexample for C9: a zero-byte payload is deployed, not rejected — the
buffer is created, an empty batch is broadcast, and finalize is sent, with
overall success. -/
theorem empty_payload_counterexample :
    deploy_program envEmpty 4 false
      = ([Event.createBufferSent, Event.tpuInitialSent [], Event.statusQueried [],
          Event.shutdownCalled, Event.finalizeSent], .ok ()) := rfl

/-- Witness for `empty_payload_not_rejected`. -/
theorem empty_payload_not_rejected_witness :
    (envEmpty.fileExists = true ∧ envEmpty.readResult = .ok []) ∧
    ((deploy_program envEmpty 4 false).2 = .ok () ∧
      Event.createBufferSent ∈ (deploy_program envEmpty 4 false).1 ∧
      Event.finalizeSent ∈ (deploy_program envEmpty 4 false).1 ∧
      (∀ env' C' imm', env'.fileExists = false →
        deploy_program env' C' imm' = ([], .error "Program file not found"))) :=
  ⟨⟨rfl, rfl⟩,
    empty_payload_not_rejected envEmpty 4 rfl rfl ⟨"program", rfl⟩ ⟨100, rfl⟩
      ⟨200, rfl⟩ ⟨1, rfl⟩ ⟨9, rfl⟩ ⟨3, rfl, by decide⟩ rfl ⟨[true, true], rfl⟩
      rfl ⟨2, rfl⟩⟩

end Scilla
